import Mathlib

/-!
Shallow embedding of the metrics engine of `psql-cli`
(`src/metrics.py` and `src/g_monitoring_collector.py`), with proofs of the
spec claims about it.

Python `datetime` values are modelled by the `Datetime` structure below,
ordered lexicographically on the components (faithful to Python's
comparison on `datetime`).  Python numbers are modelled exactly:
`int` as `ℤ`, `float` as `ℚ` (all float computations appearing in the
claims are exact dyadic arithmetic), `bool` as `Bool`; the `Union` value
type of `TimeSeries` is the sum type `PyVal`.  Python `dict` (insertion
ordered, later writes overwrite) is modelled by association lists with the
`dictSet` / `dictGet?` operations.  `list.sort(key=...)`, a stable sort,
is modelled by `List.insertionSort` (also stable); every property proved
here depends only on the sortedness/permedness of the result.  A raised
`ValueError` is modelled by `Except.error`.
-/

namespace PsqlCli

/-- Model of a Python `datetime.datetime` value (naive, component-wise). -/
structure Datetime where
  year : Nat
  month : Nat
  day : Nat
  hour : Nat
  minute : Nat
  second : Nat
  microsecond : Nat
deriving DecidableEq, Repr

/-- The components of a `Datetime`, as a nested lexicographic tuple;
Python compares `datetime` values exactly this way. -/
def Datetime.key (t : Datetime) : ℕ ×ₗ ℕ ×ₗ ℕ ×ₗ ℕ ×ₗ ℕ ×ₗ ℕ ×ₗ ℕ :=
  toLex (t.year, toLex (t.month, toLex (t.day,
    toLex (t.hour, toLex (t.minute, toLex (t.second, t.microsecond))))))

theorem Datetime.key_injective : Function.Injective Datetime.key := by
  intro a b h
  cases a; cases b
  simp only [Datetime.key, toLex_inj, Prod.mk.injEq] at h
  obtain ⟨h1, h2, h3, h4, h5, h6, h7⟩ := h
  simp_all

instance : LinearOrder Datetime := LinearOrder.lift' Datetime.key Datetime.key_injective

/-- Model of the Python value union `Union[float, int, bool]` stored in a
`TimeSeries`. -/
inductive PyVal where
  | int (n : ℤ)
  | float (q : ℚ)
  | bool (b : Bool)
deriving DecidableEq, Repr

/-- Python `float(v)` on a `TimeSeries` value. -/
def PyVal.toFloat : PyVal → ℚ
  | .int n => (n : ℚ)
  | .float q => q
  | .bool b => if b then 1 else 0

/-- Python `int`-like coercion used when `+` stays in the integers
(`int`/`bool` operands only). -/
def PyVal.toIntVal : PyVal → ℤ
  | .int n => n
  | .float q => ⌊q⌋
  | .bool b => if b then 1 else 0

/-- Python `v1 + v2` on `TimeSeries` values: any `float` operand makes the
result a `float`; `int`/`bool` operands add as integers. -/
def PyVal.add : PyVal → PyVal → PyVal
  | .float a, b => .float (a + b.toFloat)
  | a, .float b => .float (a.toFloat + b)
  | a, b => .int (a.toIntVal + b.toIntVal)

/-- Model of `metrics.TimeSeries`: a list of `(timestamp, value)` pairs
plus an optional unit string. -/
structure TimeSeries where
  values : List (Datetime × PyVal) := []
  unit : Option String := none
deriving DecidableEq, Repr

namespace TimeSeries

/-- `TimeSeries.add`: append one `(ts, value)` pair at the end. -/
def add (s : TimeSeries) (ts : Datetime) (v : PyVal) : TimeSeries :=
  { s with values := s.values ++ [(ts, v)] }

/-- `TimeSeries.timestamps`: the timestamp projection, in storage order. -/
def timestamps (s : TimeSeries) : List Datetime :=
  s.values.map Prod.fst

/-- `TimeSeries.data`: the value projection, in storage order. -/
def data (s : TimeSeries) : List PyVal :=
  s.values.map Prod.snd

/-- `TimeSeries.sort` with `ascending=True`:
`self.values.sort(key=lambda x: x[0])`, a stable sort by timestamp. -/
def sort (s : TimeSeries) : TimeSeries :=
  { s with values := s.values.insertionSort (fun a b => a.1 ≤ b.1) }

/-- `TimeSeries.get_by_ts`: scan for the first pair with exactly this
timestamp; return the Python int `0` when absent. -/
def get_by_ts (s : TimeSeries) (ts : Datetime) : PyVal :=
  match s.values.find? (fun p => decide (p.1 = ts)) with
  | some p => p.2
  | none => .int 0

end TimeSeries

/-- Python `dict.get(k)` on an association list: value of the unique
binding of `k`, if any. -/
def dictGet? {α : Type} (d : List (Datetime × α)) (k : Datetime) : Option α :=
  (d.find? (fun p => decide (p.1 = k))).map Prod.snd

/-- Python `dict.get(k, v0)`. -/
def dictGetD {α : Type} (d : List (Datetime × α)) (k : Datetime) (v0 : α) : α :=
  (dictGet? d k).getD v0

/-- Python `d[k] = v` on an association list: overwrite the existing
binding in place, else append a new binding (insertion order). -/
def dictSet {α : Type} (d : List (Datetime × α)) (k : Datetime) (v : α) :
    List (Datetime × α) :=
  if d.any (fun p => decide (p.1 = k)) then
    d.map (fun p => if p.1 = k then (k, v) else p)
  else
    d ++ [(k, v)]

/-- The bucket key of `TimeSeries.group_by_minutes`:
`ts.replace(minute=(ts.minute // min) * min, second=0, microsecond=0)`. -/
def bucketTs (m : Nat) (t : Datetime) : Datetime :=
  { t with minute := t.minute / m * m, second := 0, microsecond := 0 }

/-- One iteration of the accumulation loop of `group_by_minutes`: update the
`sums` and `counts` dicts at the bucket key of this sample. -/
def groupStep (m : Nat) (acc : List (Datetime × ℚ) × List (Datetime × ℤ))
    (p : Datetime × PyVal) : List (Datetime × ℚ) × List (Datetime × ℤ) :=
  let b := bucketTs m p.1
  (dictSet acc.1 b (dictGetD acc.1 b 0 + p.2.toFloat),
   dictSet acc.2 b (dictGetD acc.2 b 0 + 1))

/-- The aggregated value written for one bucket key by `group_by_minutes`. -/
def aggValue (mode : String) (sums : List (Datetime × ℚ))
    (counts : List (Datetime × ℤ)) (k : Datetime) : PyVal :=
  if mode = "sum" then .float (dictGetD sums k 0)
  else .float (dictGetD sums k 0 / ((dictGetD counts k 0 : ℤ) : ℚ))

namespace TimeSeries

/-- `TimeSeries.group_by_minutes(min, mode)`: validate, accumulate per-bucket
sums and counts, then rebuild the values from the sorted bucket keys.  The
Python method mutates `self.values` as its last statement; here the new
series is returned in `Except.ok`, and a raised `ValueError` is
`Except.error` (so on error no new values exist at all). -/
def group_by_minutes (s : TimeSeries) (m : ℤ) (mode : String) :
    Except String TimeSeries :=
  if m ≤ 0 then .error "min must be > 0"
  else if mode = "sum" ∨ mode = "avg" then
    let sc := s.values.foldl (groupStep m.toNat) ([], [])
    let keys := (sc.1.map Prod.fst).insertionSort (· ≤ ·)
    .ok { s with values := keys.map (fun k => (k, aggValue mode sc.1 sc.2 k)) }
  else .error "mode must be sum or avg"

end TimeSeries

/-- The dict comprehension building `self_map` / `other_map` in
`TimeSeries.combine` (later duplicate timestamps overwrite earlier ones). -/
def buildMap (vals : List (Datetime × PyVal)) : List (Datetime × PyVal) :=
  vals.foldl (fun d p => dictSet d p.1 p.2) []

/-- Python `self.unit or other.unit`: `None` and the empty string are both
falsy, any other string is truthy. -/
def pyUnitOr : Option String → Option String → Option String
  | none, b => b
  | some u, b => if u = "" then b else some u

/-- The union `set(self_map) | set(other_map)` of the two key sets, as one
enumeration: the keys of `self_map`, then the keys of `other_map` not in
`self_map`. -/
def unionKeys (selfMap otherMap : List (Datetime × PyVal)) : List Datetime :=
  selfMap.map Prod.fst ++
    (otherMap.map Prod.fst).filter
      (fun k => !(selfMap.any (fun p => decide (p.1 = k))))

/-- The value `TimeSeries.combine` stores at one timestamp of the union:
present in both maps ⇒ `sum` or `avg` of the two, present in one ⇒ that
value unchanged.  (The `none, none` branch is unreachable: every timestamp
iterated comes from one of the two maps.) -/
def combinedValue (selfMap otherMap : List (Datetime × PyVal)) (mode : String)
    (ts : Datetime) : PyVal :=
  match dictGet? selfMap ts, dictGet? otherMap ts with
  | some v1, some v2 =>
      if mode = "sum" then v1.add v2 else .float ((v1.add v2).toFloat / 2)
  | some v1, none => v1
  | none, some v2 => v2
  | none, none => .int 0

namespace TimeSeries

/-- `TimeSeries.combine(other, mode)`: validate the mode, build the two
timestamp → value dicts, walk the union of their key sets, and sort the
result.  Python iterates `set(self_map) | set(other_map)` in unspecified
order; the enumeration below (self keys, then other-only keys) is one such
order, the result is sorted afterwards, and every property proved about
`combine` is independent of the enumeration order. -/
def combine (s other : TimeSeries) (mode : String) : Except String TimeSeries :=
  if mode = "sum" ∨ mode = "avg" then
    let selfMap := buildMap s.values
    let otherMap := buildMap other.values
    let res := (unionKeys selfMap otherMap).map
      (fun ts => (ts, combinedValue selfMap otherMap mode ts))
    .ok { values := res.insertionSort (fun a b => a.1 ≤ b.1),
          unit := pyUnitOr s.unit other.unit }
  else .error "mode must be sum or avg"

end TimeSeries

/-! ## Decoders (`g_monitoring_collector.py`) -/

/-- The part of one Cloud Monitoring scalar point the decoders read:
`time` models `p.interval.end_time or p.interval.start_time`, and
`int64_value` models `p.value.int64_value`. -/
structure ScalarPoint where
  time : Datetime
  int64_value : ℤ
deriving DecidableEq, Repr

/-- `dt.replace(second=0, microsecond=0)`: truncate to the whole minute. -/
def truncToMinute (t : Datetime) : Datetime :=
  { t with second := 0, microsecond := 0 }

/-- The inner loop of `load_perquery_lock_time` over the (sorted) points of
one raw series, threading `last_p`: first point emits the raw value, later
points emit the clamped difference against the previous raw value. -/
def lockTimeLoop : Option ℤ → List ScalarPoint → List (Datetime × ℤ)
  | _, [] => []
  | last, p :: rest =>
      let dt := truncToMinute p.time
      let cur := p.int64_value
      let delta := match last with
        | none => cur
        | some lp => if cur - lp < 0 then 0 else cur - lp
      (dt, delta) :: lockTimeLoop (some cur) rest

/-- `load_perquery_lock_time`, restricted to the decoding of one raw
series: sort the points by time, then delta-decode them. -/
def load_perquery_lock_time_points (points : List ScalarPoint) :
    List (Datetime × ℤ) :=
  lockTimeLoop none (points.insertionSort (fun a b => a.time ≤ b.time))

/-- `load_perquery_IO_time`, restricted to the decoding of one raw series:
sort the points by time, truncate each timestamp, and emit the raw
`int64_value` of every point (no delta computation appears in the source). -/
def load_perquery_IO_time_points (points : List ScalarPoint) :
    List (Datetime × ℤ) :=
  (points.insertionSort (fun a b => a.time ≤ b.time)).map
    (fun p => (truncToMinute p.time, p.int64_value))

/-- The delta rule exactly as the spec states it (§4.2), written from the
spec's words for comparison with the decoders: after a first delta, every
later delta is `max(0, raw_value - last_value)`. -/
def specDeltasFrom (prev : ℤ) : List ℤ → List ℤ
  | [] => []
  | c :: rest => max 0 (c - prev) :: specDeltasFrom c rest

/-- The delta rule exactly as the spec states it (§4.2): the first delta
equals the raw value, later deltas are `max(0, raw_value - last_value)`. -/
def specDeltas : List ℤ → List ℤ
  | [] => []
  | r :: rest => r :: specDeltasFrom r rest

/-- `_percentile_from_explicit_buckets`, the bucket walk: `i` is the
enumeration index and `cum` the cumulative count before this bucket. -/
def percentileLoop (bounds : List ℚ) (target : ℚ) :
    List ℤ → Nat → ℚ → ℚ
  | [], _, _ => (bounds.getLast?).getD 0
  | c :: rest, i, cum =>
      if c ≤ 0 then percentileLoop bounds target rest (i + 1) (cum + (c : ℚ))
      else
        let next_cum := cum + (c : ℚ)
        if target ≤ next_cum then
          let within : ℚ := if c = 0 then 0 else (target - cum) / (c : ℚ)
          if i = 0 then
            max 0 (within * ((bounds.head?).getD 0))
          else if bounds.length ≤ i then
            (bounds.getLast?).getD 0
          else
            let lower := bounds.getD (i - 1) 0
            let upper := bounds.getD i 0
            lower + within * (upper - lower)
        else percentileLoop bounds target rest (i + 1) next_cum

/-- `_percentile_from_explicit_buckets(bounds, bucket_counts, q)`:
approximate percentile `q` of an explicit-bucket histogram, linearly
interpolating inside the answer bucket. -/
def percentile_from_explicit_buckets (bounds : List ℚ) (bucket_counts : List ℤ)
    (q : ℚ) : ℚ :=
  let total := bucket_counts.sum
  if total ≤ 0 then 0
  else
    let qc := if q ≤ 0 then 0 else if 1 ≤ q then 1 else q
    percentileLoop bounds (qc * (total : ℚ)) bucket_counts 0 0

/-- The part of one Cloud Monitoring distribution point that
`load_perquery_latency` reads: `time` models
`p.interval.end_time or p.interval.start_time`; `count`, `mean`,
`bounds` and `bucket_counts` model `p.value.distribution_value` (empty
`bounds` / `bucket_counts` model the `except` branch where the explicit
bucket configuration is unavailable). -/
structure DistPoint where
  time : Datetime
  count : ℤ
  mean : ℚ
  bounds : List ℚ
  bucket_counts : List ℤ
deriving DecidableEq, Repr

/-- The loop-carried state of `load_perquery_latency` for one
`PerqueryLatencyMetric` bundle.  `last_sum_us` is read in the source only
as `(last_sum_us or 0.0)`, which makes `None` and `0.0` indistinguishable,
so it is carried as a plain `ℚ`; `last_bucket_counts` / `last_bounds` are
read only when `last_count` is not `None`, at which point the source has
set them to plain (possibly empty) lists. -/
structure LatencyState where
  last_count : Option ℤ
  last_sum_us : ℚ
  last_bucket_counts : List ℤ
  last_bounds : List ℚ
  perquery_count : TimeSeries
  perquery_latency_mean : TimeSeries
  perquery_latency_pr75 : TimeSeries
deriving Repr

/-- One iteration of the per-point loop of `load_perquery_latency`
(source lines 310-388): compute the delta count / sum / histogram against
the previous point, then append one value with the same truncated
timestamp to each of the three sibling series. -/
def latencyStep (st : LatencyState) (p : DistPoint) : LatencyState :=
  let dt := truncToMinute p.time
  let cur_count := p.count
  let cur_sum_us := p.mean * (cur_count : ℚ)
  let bounds := p.bounds
  let buckets := p.bucket_counts
  let deltas : ℤ × ℚ × List ℤ × List ℚ :=
    match st.last_count with
    | none => (cur_count, cur_sum_us, buckets, bounds)
    | some lc =>
        let delta_count := if cur_count - lc < 0 then 0 else cur_count - lc
        let ds := cur_sum_us - st.last_sum_us
        let delta_sum_us := if ds < 0 then 0 else ds
        if buckets ≠ [] ∧ st.last_bucket_counts ≠ [] ∧ bounds ≠ []
            ∧ st.last_bounds ≠ []
            ∧ bounds.length = st.last_bounds.length
            ∧ buckets.length = st.last_bucket_counts.length then
          (delta_count, delta_sum_us,
           List.zipWith (fun cb lb => if cb - lb > 0 then cb - lb else 0)
             buckets st.last_bucket_counts,
           bounds)
        else
          (delta_count, delta_sum_us, [], bounds)
  let delta_count := deltas.1
  let delta_sum_us := deltas.2.1
  let delta_buckets := deltas.2.2.1
  let delta_bounds := deltas.2.2.2
  let mean_us := if 0 < delta_count then delta_sum_us / (delta_count : ℚ) else 0
  let pr75_us :=
    if 0 < delta_count ∧ delta_buckets ≠ [] ∧ delta_bounds ≠ [] then
      percentile_from_explicit_buckets delta_bounds delta_buckets (3/4)
    else if delta_count = 1 then mean_us else 0
  { last_count := some cur_count
    last_sum_us := cur_sum_us
    last_bucket_counts := buckets
    last_bounds := bounds
    perquery_count := st.perquery_count.add dt (.int delta_count)
    perquery_latency_mean := st.perquery_latency_mean.add dt (.float mean_us)
    perquery_latency_pr75 := st.perquery_latency_pr75.add dt (.float pr75_us) }

/-- Decoding of one raw series into an existing bundle: the `last_*`
variables are local to the per-series loop (reset before it), the three
sibling series keep accumulating. -/
def processLatencySeries (st : LatencyState) (points : List DistPoint) :
    LatencyState :=
  (points.insertionSort (fun a b => a.time ≤ b.time)).foldl latencyStep
    { st with last_count := none, last_sum_us := 0,
              last_bucket_counts := [], last_bounds := [] }

/-- The freshly created `PerqueryLatencyMetric` bundle. -/
def emptyLatencyState : LatencyState :=
  { last_count := none, last_sum_us := 0, last_bucket_counts := [],
    last_bounds := [],
    perquery_count := { values := [], unit := some "count" },
    perquery_latency_mean := { values := [], unit := some "us = microseconds" },
    perquery_latency_pr75 := { values := [], unit := some "us = microseconds" } }

/-- `load_perquery_latency`, restricted to one identity bundle: decode
every raw series grouped under this identity (in fetch order), then sort
each of the three sibling series chronologically (source lines 390-395). -/
def load_perquery_latency_bundle (seriesList : List (List DistPoint)) :
    TimeSeries × TimeSeries × TimeSeries :=
  let st := seriesList.foldl processLatencySeries emptyLatencyState
  (st.perquery_count.sort, st.perquery_latency_mean.sort,
   st.perquery_latency_pr75.sort)

/-! ## Orchestrator (`generate_cloudsql_metrics`) -/

/-- The fan-in loop of `generate_cloudsql_metrics`:
`for fut in as_completed(...): data[attr] = fut.result()`.
The argument is the registered tasks in completion order, each carrying
its outcome; `fut.result()` re-raises a task's exception, which aborts the
loop (and the whole function) at the first failed future encountered, so
no `CloudSQLMetrics` is built.  On success the keyword-argument dict
`data` (from which `CloudSQLMetrics(**data)` is built, one field per
task) is returned. -/
def gatherResults {ε ρ : Type} :
    List (String × Except ε ρ) → Except ε (List (String × ρ))
  | [] => .ok []
  | (_, .error e) :: _ => .error e
  | (attr, .ok r) :: rest => (gatherResults rest).map (fun d => (attr, r) :: d)

/-- `generate_cloudsql_metrics`, as a function of the completion order of
its registered fetch tasks: either the fully populated snapshot dict, or
the error of the first failed task encountered. -/
def generate_cloudsql_metrics {ε ρ : Type}
    (completed : List (String × Except ε ρ)) :
    Except ε (List (String × ρ)) :=
  gatherResults completed

/-! ## Concrete inputs used in the worked examples and witnesses -/

/-- A sample timestamp, one per minute offset, with nonzero seconds and
microseconds. -/
def exDt (mi : Nat) : Datetime := ⟨2024, 1, 1, 12, mi, 30, 500⟩

/-- The cumulative lock-time reading sequence `[0, 100, 250, 200]` of the
spec's worked example, one reading per minute. -/
def lockExamplePoints : List ScalarPoint :=
  [⟨exDt 0, 0⟩, ⟨exDt 1, 100⟩, ⟨exDt 2, 250⟩, ⟨exDt 3, 200⟩]

/-- The same cumulative reading sequence `[0, 100, 250, 200]`, fed to the
IO-time decoder. -/
def ioExamplePoints : List ScalarPoint :=
  [⟨exDt 0, 0⟩, ⟨exDt 1, 100⟩, ⟨exDt 2, 250⟩, ⟨exDt 3, 200⟩]

/-- A registry outcome with one succeeding and one failing fetch task. -/
def failFastTasks : List (String × Except String Nat) :=
  [("cpu_utilization", .ok 1), ("wal_flushed_bytes_metrics", .error "quota")]

/-- A small series used as the left operand of `combine` in witnesses. -/
def combA : TimeSeries := ⟨[(exDt 0, .int 1), (exDt 1, .int 2)], some "bytes"⟩

/-- A small series used as the right operand of `combine` in witnesses,
with one shared and one fresh timestamp and a boolean value. -/
def combB : TimeSeries := ⟨[(exDt 1, .int 5), (exDt 2, .bool true)], none⟩

/-- A small unsorted series with two samples in one 5-minute bucket, used
as the `group_by_minutes` witness input. -/
def groupExample : TimeSeries :=
  ⟨[(exDt 7, .int 2), (exDt 0, .int 1), (exDt 3, .float (5/2))], some "ratio"⟩

/-- The result of `combine combA combB "sum"`, spelled out for the
witnesses. -/
def combABResult : TimeSeries :=
  ⟨[(exDt 0, .int 1), (exDt 1, .int 7), (exDt 2, .bool true)], some "bytes"⟩

/-- The alignment invariant of one latency bundle: the three sibling
series carry identical timestamp sequences. -/
def LatencyState.aligned (st : LatencyState) : Prop :=
  st.perquery_count.values.map Prod.fst
      = st.perquery_latency_mean.values.map Prod.fst
  ∧ st.perquery_latency_mean.values.map Prod.fst
      = st.perquery_latency_pr75.values.map Prod.fst

/-! ## Lemmas about the delta decoders -/

theorem lockTimeLoop_map_fst (last : Option ℤ) (ps : List ScalarPoint) :
    (lockTimeLoop last ps).map Prod.fst = ps.map (fun p => truncToMinute p.time) := by
  induction ps generalizing last with
  | nil => rfl
  | cons p rest ih => simp [lockTimeLoop, ih]

theorem lockTimeLoop_map_snd_some (prev : ℤ) (ps : List ScalarPoint) :
    (lockTimeLoop (some prev) ps).map Prod.snd
      = specDeltasFrom prev (ps.map ScalarPoint.int64_value) := by
  induction ps generalizing prev with
  | nil => rfl
  | cons p rest ih =>
    simp only [lockTimeLoop, List.map_cons, specDeltasFrom, ih, List.cons.injEq,
      and_true]
    rcases lt_or_le (p.int64_value - prev) 0 with h | h
    · rw [if_pos h, max_eq_left h.le]
    · rw [if_neg (not_lt.2 h), max_eq_right h]

theorem lockTimeLoop_map_snd (ps : List ScalarPoint) :
    (lockTimeLoop none ps).map Prod.snd = specDeltas (ps.map ScalarPoint.int64_value) := by
  cases ps with
  | nil => rfl
  | cons p rest => simp [lockTimeLoop, specDeltas, lockTimeLoop_map_snd_some]

/-- C1.  The lock-time delta decoder emits, for a time-ordered sequence of
cumulative readings of one identity, the raw value as the first delta and
`max(0, current - previous)` for every later delta (this is exactly the
spec's delta rule `specDeltas`), and every emitted timestamp is the
point's timestamp with seconds and microseconds truncated to zero. -/
theorem lock_time_delta_decode_correct (ps : List ScalarPoint)
    (h : ps.Sorted (fun a b => a.time ≤ b.time)) :
    (load_perquery_lock_time_points ps).map Prod.snd
        = specDeltas (ps.map ScalarPoint.int64_value)
    ∧ (load_perquery_lock_time_points ps).map Prod.fst
        = ps.map (fun p => truncToMinute p.time)
    ∧ ∀ t ∈ (load_perquery_lock_time_points ps).map Prod.fst,
        t.second = 0 ∧ t.microsecond = 0 := by
  have hs : ps.insertionSort (fun a b => a.time ≤ b.time) = ps :=
    h.insertionSort_eq
  unfold load_perquery_lock_time_points
  rw [hs]
  refine ⟨lockTimeLoop_map_snd ps, lockTimeLoop_map_fst none ps, ?_⟩
  rw [lockTimeLoop_map_fst none ps]
  intro t ht
  obtain ⟨p, _, hp⟩ := List.mem_map.1 ht
  rw [← hp]
  exact ⟨rfl, rfl⟩

/-- C1 witness: the spec's worked example — cumulative readings
`[0, 100, 250, 200]` decode to deltas `[0, 100, 150, 0]`. -/
theorem lock_time_delta_decode_correct_witness :
    lockExamplePoints.Sorted (fun a b => a.time ≤ b.time)
    ∧ (load_perquery_lock_time_points lockExamplePoints).map Prod.snd
        = specDeltas (lockExamplePoints.map ScalarPoint.int64_value)
    ∧ (load_perquery_lock_time_points lockExamplePoints).map Prod.snd
        = [0, 100, 150, 0] := by
  have hsorted : lockExamplePoints.Sorted (fun a b => a.time ≤ b.time) := by decide
  refine ⟨hsorted, (lock_time_delta_decode_correct lockExamplePoints hsorted).1, ?_⟩
  decide

/-- C2.  The percentile estimator, on the explicit-bucket histogram with
bounds `[10, 20, 30]` and delta bucket counts `[2, 3, 5]` at `p = 0.75`,
returns exactly `25`; the target rank is `0.75 * 10 = 7.5`, the cumulative
count before the answer bucket `[20, 30)` is `2 + 3 = 5`, the interpolated
fraction is `(7.5 - 5)/5 = 0.5`, and `20 + 0.5 * (30 - 20) = 25`. -/
theorem percentile_pr75_example :
    percentile_from_explicit_buckets [10, 20, 30] [2, 3, 5] (3/4) = 25
    ∧ (3/4 : ℚ) * ((([2, 3, 5] : List ℤ).sum : ℤ) : ℚ) = 15/2
    ∧ ((15/2 : ℚ) - (2 + 3)) / 5 = 1/2
    ∧ (20 : ℚ) + (1/2) * (30 - 20) = 25 := by
  refine ⟨?_, by norm_num, by norm_num, by norm_num⟩
  norm_num [percentile_from_explicit_buckets, percentileLoop]

/-- C4 (code bug).  The IO-time decoder emits the raw cumulative readings,
not deltas: on the readings `[0, 100, 250, 200]` it emits
`[0, 100, 250, 200]`, which differs from the delta decoding
`[0, 100, 150, 0]` that the spec prescribes for cumulative IO-time
readings. -/
theorem io_time_emits_raw_not_delta :
    (load_perquery_IO_time_points ioExamplePoints).map Prod.snd
        = [0, 100, 250, 200]
    ∧ specDeltas (ioExamplePoints.map ScalarPoint.int64_value)
        = [0, 100, 150, 0]
    ∧ (load_perquery_IO_time_points ioExamplePoints).map Prod.snd
        ≠ specDeltas (ioExamplePoints.map ScalarPoint.int64_value) := by
  refine ⟨by decide, by decide, by decide⟩

/-- C8.  `get_by_ts` on a timestamp absent from the stored timestamps
returns exactly the Python int `0`, whatever the stored values are
(booleans included). -/
theorem get_by_ts_absent_sentinel (s : TimeSeries) (ts : Datetime)
    (h : ts ∉ s.timestamps) : s.get_by_ts ts = PyVal.int 0 := by
  unfold TimeSeries.get_by_ts
  have hnone : s.values.find? (fun p => decide (p.1 = ts)) = none := by
    rw [List.find?_eq_none]
    intro p hp
    simp only [decide_eq_true_eq]
    intro he
    exact h (List.mem_map.2 ⟨p, hp, he⟩)
  rw [hnone]

/-- C8 witness: a boolean-valued series and an absent timestamp. -/
theorem get_by_ts_absent_sentinel_witness :
    exDt 1 ∉ (⟨[(exDt 0, .bool true)], none⟩ : TimeSeries).timestamps
    ∧ TimeSeries.get_by_ts ⟨[(exDt 0, .bool true)], none⟩ (exDt 1) = PyVal.int 0 :=
  ⟨by decide, get_by_ts_absent_sentinel ⟨[(exDt 0, .bool true)], none⟩ (exDt 1) (by decide)⟩

/-- C3.  If any registered fetch task raised an error, snapshot assembly
propagates an error raised by one of the failed tasks and never returns a
(partial or total) snapshot — whatever the completion order of the
concurrent tasks (the theorem quantifies over every completion order
`completed`). -/
theorem fail_fast_aborts_snapshot {ε ρ : Type}
    (completed : List (String × Except ε ρ))
    (h : ∃ a e, (a, Except.error e) ∈ completed) :
    ∃ e, generate_cloudsql_metrics completed = Except.error e
      ∧ (∃ a, (a, Except.error e) ∈ completed)
      ∧ ∀ d, generate_cloudsql_metrics completed ≠ Except.ok d := by
  induction completed with
  | nil => simp at h
  | cons x rest ih =>
    obtain ⟨a, e, hmem⟩ := h
    match x with
    | (b, Except.error eb) =>
      refine ⟨eb, rfl, ⟨b, List.mem_cons_self _ _⟩, ?_⟩
      intro d hd
      exact Except.noConfusion hd
    | (b, Except.ok rb) =>
      have hmem' : (a, Except.error e) ∈ rest := by
        rcases List.mem_cons.1 hmem with h1 | h1
        · exact absurd (congrArg Prod.snd h1) (by simp)
        · exact h1
      obtain ⟨e', he', ⟨a', ha'⟩, _⟩ := ih ⟨a, e, hmem'⟩
      have hform : generate_cloudsql_metrics ((b, Except.ok rb) :: rest)
          = Except.error e' := by
        simp only [generate_cloudsql_metrics, gatherResults] at he' ⊢
        rw [he']
        rfl
      refine ⟨e', hform, ⟨a', List.mem_cons_of_mem _ ha'⟩, ?_⟩
      intro d hd
      rw [hform] at hd
      exact Except.noConfusion hd

/-- C3 witness: one succeeding and one failing task. -/
theorem fail_fast_aborts_snapshot_witness :
    (∃ a e, (a, Except.error e) ∈ failFastTasks)
    ∧ ∃ e, generate_cloudsql_metrics failFastTasks = Except.error e
      ∧ (∃ a, (a, Except.error e) ∈ failFastTasks)
      ∧ ∀ d, generate_cloudsql_metrics failFastTasks ≠ Except.ok d :=
  ⟨⟨"wal_flushed_bytes_metrics", "quota", List.Mem.tail _ (List.Mem.head _)⟩,
   fail_fast_aborts_snapshot failFastTasks
     ⟨"wal_flushed_bytes_metrics", "quota", List.Mem.tail _ (List.Mem.head _)⟩⟩

/-! ## Lemmas about the dict model -/

theorem anyKey_iff {α : Type} (d : List (Datetime × α)) (k : Datetime) :
    d.any (fun p => decide (p.1 = k)) = true ↔ k ∈ d.map Prod.fst := by
  rw [List.any_eq_true]
  constructor
  · rintro ⟨p, hp, he⟩
    exact List.mem_map.2 ⟨p, hp, of_decide_eq_true he⟩
  · intro hk
    obtain ⟨p, hp, he⟩ := List.mem_map.1 hk
    exact ⟨p, hp, decide_eq_true he⟩

theorem dictSet_map_fst {α : Type} (d : List (Datetime × α)) (k : Datetime) (v : α) :
    (dictSet d k v).map Prod.fst =
      if k ∈ d.map Prod.fst then d.map Prod.fst else d.map Prod.fst ++ [k] := by
  unfold dictSet
  by_cases h : d.any (fun p => decide (p.1 = k)) = true
  · rw [if_pos h, if_pos ((anyKey_iff d k).1 h), List.map_map]
    refine List.map_congr_left fun p hp => ?_
    by_cases hpk : p.1 = k
    · simp [hpk]
    · simp [hpk]
  · rw [if_neg h, if_neg fun hk => h ((anyKey_iff d k).2 hk)]
    simp

theorem dictSet_mem_keys_iff {α : Type} (d : List (Datetime × α)) (a k : Datetime)
    (v : α) :
    a ∈ (dictSet d k v).map Prod.fst ↔ a ∈ d.map Prod.fst ∨ a = k := by
  rw [dictSet_map_fst]
  by_cases h : k ∈ d.map Prod.fst
  · rw [if_pos h]
    constructor
    · exact Or.inl
    · rintro (ha | rfl)
      · exact ha
      · exact h
  · rw [if_neg h]
    simp [List.mem_append]

theorem dictSet_keys_nodup {α : Type} {d : List (Datetime × α)}
    (h : (d.map Prod.fst).Nodup) (k : Datetime) (v : α) :
    ((dictSet d k v).map Prod.fst).Nodup := by
  rw [dictSet_map_fst]
  by_cases hk : k ∈ d.map Prod.fst
  · rw [if_pos hk]
    exact h
  · rw [if_neg hk]
    exact h.append (List.nodup_singleton k)
      (fun a ha hb => hk ((List.mem_singleton.1 hb) ▸ ha))

theorem dictSet_mem {α : Type} {d : List (Datetime × α)} {k : Datetime} {v : α}
    {p : Datetime × α} (h : p ∈ dictSet d k v) : p ∈ d ∨ p = (k, v) := by
  unfold dictSet at h
  by_cases hc : d.any (fun q => decide (q.1 = k)) = true
  · rw [if_pos hc] at h
    obtain ⟨q, hq, he⟩ := List.mem_map.1 h
    by_cases hqk : q.1 = k
    · right
      rw [← he, if_pos hqk]
    · left
      rw [← he, if_neg hqk]
      exact hq
  · rw [if_neg hc] at h
    rcases List.mem_append.1 h with h1 | h1
    · exact Or.inl h1
    · exact Or.inr (List.mem_singleton.1 h1)

theorem dictGet?_mem {α : Type} {d : List (Datetime × α)} {k : Datetime} {v : α}
    (h : dictGet? d k = some v) : (k, v) ∈ d := by
  unfold dictGet? at h
  cases hf : d.find? (fun p => decide (p.1 = k)) with
  | none =>
    rw [hf] at h
    exact Option.noConfusion h
  | some q =>
    rw [hf] at h
    have hq := List.mem_of_find?_eq_some hf
    have hk : q.1 = k := by simpa using List.find?_some hf
    have hv : q.2 = v := by simpa using h
    rw [← hk, ← hv]
    exact hq

theorem dictGet?_isSome_iff {α : Type} (d : List (Datetime × α)) (k : Datetime) :
    (dictGet? d k).isSome = true ↔ k ∈ d.map Prod.fst := by
  constructor
  · intro h
    obtain ⟨v, hv⟩ := Option.isSome_iff_exists.1 h
    exact List.mem_map.2 ⟨(k, v), dictGet?_mem hv, rfl⟩
  · intro hk
    obtain ⟨p, hp, he⟩ := List.mem_map.1 hk
    unfold dictGet?
    cases hf : d.find? (fun q => decide (q.1 = k)) with
    | none =>
      exfalso
      rw [List.find?_eq_none] at hf
      exact hf p hp (decide_eq_true he)
    | some q => rfl

theorem dictGet?_eq_none_iff {α : Type} (d : List (Datetime × α)) (k : Datetime) :
    dictGet? d k = none ↔ k ∉ d.map Prod.fst := by
  rw [← Option.not_isSome_iff_eq_none]
  exact not_congr (dictGet?_isSome_iff d k)

theorem foldl_dictSet_keys_nodup (vals : List (Datetime × PyVal)) :
    ∀ d : List (Datetime × PyVal), (d.map Prod.fst).Nodup →
      ((vals.foldl (fun d p => dictSet d p.1 p.2) d).map Prod.fst).Nodup := by
  induction vals with
  | nil => exact fun d h => h
  | cons p rest ih => exact fun d h => ih _ (dictSet_keys_nodup h p.1 p.2)

theorem buildMap_keys_nodup (vals : List (Datetime × PyVal)) :
    ((buildMap vals).map Prod.fst).Nodup :=
  foldl_dictSet_keys_nodup vals [] List.nodup_nil

theorem foldl_dictSet_keys_iff (vals : List (Datetime × PyVal)) :
    ∀ d k, k ∈ (vals.foldl (fun d p => dictSet d p.1 p.2) d).map Prod.fst
      ↔ k ∈ d.map Prod.fst ∨ k ∈ vals.map Prod.fst := by
  induction vals with
  | nil =>
    intro d k
    simp
  | cons p rest ih =>
    intro d k
    rw [List.foldl_cons, ih (dictSet d p.1 p.2) k, dictSet_mem_keys_iff]
    simp only [List.map_cons, List.mem_cons]
    tauto

theorem buildMap_keys_iff (vals : List (Datetime × PyVal)) (k : Datetime) :
    k ∈ (buildMap vals).map Prod.fst ↔ k ∈ vals.map Prod.fst := by
  unfold buildMap
  rw [foldl_dictSet_keys_iff]
  simp

theorem foldl_dictSet_mem_sub (vals : List (Datetime × PyVal)) :
    ∀ d p, p ∈ vals.foldl (fun d q => dictSet d q.1 q.2) d → p ∈ d ∨ p ∈ vals := by
  induction vals with
  | nil => exact fun d p h => Or.inl h
  | cons q rest ih =>
    intro d p h
    rcases ih _ p h with h1 | h1
    · rcases dictSet_mem h1 with h2 | h2
      · exact Or.inl h2
      · right
        rw [h2, Prod.mk.eta]
        exact List.mem_cons_self _ _
    · exact Or.inr (List.mem_cons_of_mem _ h1)

theorem buildMap_mem_sub {vals : List (Datetime × PyVal)} {p : Datetime × PyVal}
    (h : p ∈ buildMap vals) : p ∈ vals := by
  rcases foldl_dictSet_mem_sub vals [] p h with h1 | h1
  · simp at h1
  · exact h1

theorem unionKeys_mem (sm om : List (Datetime × PyVal)) (k : Datetime) :
    k ∈ unionKeys sm om ↔ k ∈ sm.map Prod.fst ∨ k ∈ om.map Prod.fst := by
  unfold unionKeys
  rw [List.mem_append, List.mem_filter]
  constructor
  · rintro (h | ⟨h, _⟩)
    · exact Or.inl h
    · exact Or.inr h
  · rintro (h | h)
    · exact Or.inl h
    · by_cases hs : k ∈ sm.map Prod.fst
      · exact Or.inl hs
      · refine Or.inr ⟨h, ?_⟩
        cases hany : sm.any (fun p => decide (p.1 = k)) with
        | false => rfl
        | true => exact absurd ((anyKey_iff sm k).1 hany) hs

theorem unionKeys_nodup {sm om : List (Datetime × PyVal)}
    (h1 : (sm.map Prod.fst).Nodup) (h2 : (om.map Prod.fst).Nodup) :
    (unionKeys sm om).Nodup := by
  unfold unionKeys
  refine h1.append (h2.filter _) ?_
  intro a ha hb
  obtain ⟨_, hcond⟩ := List.mem_filter.1 hb
  have := (anyKey_iff sm a).2 ha
  simp [this] at hcond

theorem get_by_ts_eq_of_mem {s : TimeSeries} (hnd : (s.values.map Prod.fst).Nodup)
    {ts : Datetime} {v : PyVal} (hm : (ts, v) ∈ s.values) : s.get_by_ts ts = v := by
  unfold TimeSeries.get_by_ts
  cases hf : s.values.find? (fun p => decide (p.1 = ts)) with
  | none =>
    exfalso
    rw [List.find?_eq_none] at hf
    exact hf (ts, v) hm (by simp)
  | some q =>
    have hq := List.mem_of_find?_eq_some hf
    have hk : q.1 = ts := by simpa using List.find?_some hf
    have hqe : q = (ts, v) := List.inj_on_of_nodup_map hnd hq hm (by rw [hk])
    rw [hqe]

/-! ## Lemmas about `combine` -/

theorem combine_ok_inv {A B : TimeSeries} {mode : String} {r : TimeSeries}
    (h : A.combine B mode = .ok r) :
    r.values = ((unionKeys (buildMap A.values) (buildMap B.values)).map
        (fun ts => (ts,
          combinedValue (buildMap A.values) (buildMap B.values) mode ts))).insertionSort
        (fun a b => a.1 ≤ b.1)
    ∧ r.unit = pyUnitOr A.unit B.unit := by
  unfold TimeSeries.combine at h
  by_cases hm : mode = "sum" ∨ mode = "avg"
  · rw [if_pos hm] at h
    injection h with h
    rw [← h]
    exact ⟨rfl, rfl⟩
  · rw [if_neg hm] at h
    exact Except.noConfusion h

theorem combine_ok_timestamps {A B : TimeSeries} {mode : String} {r : TimeSeries}
    (h : A.combine B mode = .ok r) :
    r.timestamps = (unionKeys (buildMap A.values)
      (buildMap B.values)).insertionSort (· ≤ ·) := by
  have hv := (combine_ok_inv h).1
  unfold TimeSeries.timestamps
  rw [hv, List.map_insertionSort _ _ Prod.fst _ (fun a _ b _ => Iff.rfl)]
  congr 1
  rw [List.map_map]
  have hcomp : (Prod.fst ∘ fun ts : Datetime =>
      (ts, combinedValue (buildMap A.values) (buildMap B.values) mode ts)) = id := rfl
  rw [hcomp, List.map_id]

theorem combine_ok_timestamps_nodup {A B : TimeSeries} {mode : String}
    {r : TimeSeries} (h : A.combine B mode = .ok r) : r.timestamps.Nodup := by
  rw [combine_ok_timestamps h]
  exact ((List.perm_insertionSort _ _).nodup_iff).2
    (unionKeys_nodup (buildMap_keys_nodup _) (buildMap_keys_nodup _))

theorem combine_ok_mem_iff {A B : TimeSeries} {mode : String} {r : TimeSeries}
    (h : A.combine B mode = .ok r) (t : Datetime) :
    t ∈ r.timestamps ↔ t ∈ A.timestamps ∨ t ∈ B.timestamps := by
  rw [combine_ok_timestamps h, (List.perm_insertionSort _ _).mem_iff,
    unionKeys_mem, buildMap_keys_iff, buildMap_keys_iff]
  exact Iff.rfl

theorem combine_ok_length {A B : TimeSeries} {mode : String} {r : TimeSeries}
    (h : A.combine B mode = .ok r) :
    r.timestamps.length = (A.timestamps.toFinset ∪ B.timestamps.toFinset).card := by
  rw [← List.toFinset_card_of_nodup (combine_ok_timestamps_nodup h)]
  congr 1
  ext t
  simp only [List.mem_toFinset, Finset.mem_union]
  exact combine_ok_mem_iff h t

theorem combine_ok_copy_left {A B : TimeSeries} {mode : String} {r : TimeSeries}
    (h : A.combine B mode = .ok r) (ts : Datetime)
    (hA : ts ∈ A.timestamps) (hB : ts ∉ B.timestamps) :
    ∃ v, (ts, v) ∈ A.values ∧ r.get_by_ts ts = v := by
  have hsm : ts ∈ (buildMap A.values).map Prod.fst := (buildMap_keys_iff _ _).2 hA
  obtain ⟨v, hv⟩ :=
    Option.isSome_iff_exists.1 ((dictGet?_isSome_iff (buildMap A.values) ts).2 hsm)
  have hnone : dictGet? (buildMap B.values) ts = none :=
    (dictGet?_eq_none_iff _ _).2 (fun hc => hB ((buildMap_keys_iff _ _).1 hc))
  refine ⟨v, buildMap_mem_sub (dictGet?_mem hv), ?_⟩
  have hval : combinedValue (buildMap A.values) (buildMap B.values) mode ts = v := by
    simp [combinedValue, hv, hnone]
  have hmem_r : (ts, v) ∈ r.values := by
    rw [(combine_ok_inv h).1]
    exact ((List.perm_insertionSort _ _).mem_iff).2
      (List.mem_map.2 ⟨ts, (unionKeys_mem _ _ _).2 (Or.inl hsm), by rw [hval]⟩)
  exact get_by_ts_eq_of_mem (combine_ok_timestamps_nodup h) hmem_r

theorem combine_ok_copy_right {A B : TimeSeries} {mode : String} {r : TimeSeries}
    (h : A.combine B mode = .ok r) (ts : Datetime)
    (hB : ts ∈ B.timestamps) (hA : ts ∉ A.timestamps) :
    ∃ v, (ts, v) ∈ B.values ∧ r.get_by_ts ts = v := by
  have hom : ts ∈ (buildMap B.values).map Prod.fst := (buildMap_keys_iff _ _).2 hB
  obtain ⟨v, hv⟩ :=
    Option.isSome_iff_exists.1 ((dictGet?_isSome_iff (buildMap B.values) ts).2 hom)
  have hnone : dictGet? (buildMap A.values) ts = none :=
    (dictGet?_eq_none_iff _ _).2 (fun hc => hA ((buildMap_keys_iff _ _).1 hc))
  refine ⟨v, buildMap_mem_sub (dictGet?_mem hv), ?_⟩
  have hval : combinedValue (buildMap A.values) (buildMap B.values) mode ts = v := by
    simp [combinedValue, hv, hnone]
  have hmem_r : (ts, v) ∈ r.values := by
    rw [(combine_ok_inv h).1]
    exact ((List.perm_insertionSort _ _).mem_iff).2
      (List.mem_map.2 ⟨ts, (unionKeys_mem _ _ _).2 (Or.inr hom), by rw [hval]⟩)
  exact get_by_ts_eq_of_mem (combine_ok_timestamps_nodup h) hmem_r

theorem pyUnitOr_eq_if (a b : Option String) :
    pyUnitOr a b = if a ≠ none ∧ a ≠ some "" then a else b := by
  cases a with
  | none => simp [pyUnitOr]
  | some u =>
    by_cases hu : u = ""
    · simp [pyUnitOr, hu]
    · simp [pyUnitOr, hu]

/-- C5 (amended: the result's unit is A's unit when A's unit is non-null
AND non-empty, otherwise B's unit — Python `or` treats the empty string as
falsy).  For every two series and either supported mode, `combine` returns
a series whose timestamp set is the union of the two timestamp sets, whose
length is the cardinality of that union, in which a timestamp present in
exactly one input keeps a value stored in that input unchanged. -/
theorem combine_union_copy_unit (A B : TimeSeries) (mode : String)
    (hmode : mode = "sum" ∨ mode = "avg") :
    ∃ r, A.combine B mode = .ok r
    ∧ (∀ t, t ∈ r.timestamps ↔ (t ∈ A.timestamps ∨ t ∈ B.timestamps))
    ∧ r.timestamps.length = (A.timestamps.toFinset ∪ B.timestamps.toFinset).card
    ∧ (∀ ts, ts ∈ A.timestamps → ts ∉ B.timestamps →
        ∃ v, (ts, v) ∈ A.values ∧ r.get_by_ts ts = v)
    ∧ (∀ ts, ts ∈ B.timestamps → ts ∉ A.timestamps →
        ∃ v, (ts, v) ∈ B.values ∧ r.get_by_ts ts = v)
    ∧ r.unit = (if A.unit ≠ none ∧ A.unit ≠ some "" then A.unit else B.unit) := by
  obtain ⟨r, hr⟩ : ∃ r, A.combine B mode = .ok r := by
    unfold TimeSeries.combine
    rw [if_pos hmode]
    exact ⟨_, rfl⟩
  refine ⟨r, hr, fun t => combine_ok_mem_iff hr t, combine_ok_length hr,
    fun ts h1 h2 => combine_ok_copy_left hr ts h1 h2,
    fun ts h1 h2 => combine_ok_copy_right hr ts h1 h2, ?_⟩
  rw [(combine_ok_inv hr).2, pyUnitOr_eq_if]

/-- C5 counterexample to the claim as stated: a left series with the
non-null unit `""` — the claim says the result takes A's unit `some ""`,
the code returns B's unit `some "bytes"`. -/
theorem combine_unit_claim_counterexample :
    TimeSeries.combine ⟨[], some ""⟩ ⟨[], some "bytes"⟩ "sum"
      = .ok ⟨[], some "bytes"⟩
    ∧ (some "bytes" : Option String) ≠ some "" :=
  ⟨rfl, by decide⟩

/-- C5 witness: the amended combine contract at two concrete series. -/
theorem combine_union_copy_unit_witness :
    (("sum" : String) = "sum" ∨ ("sum" : String) = "avg")
    ∧ ∃ r, TimeSeries.combine combA combB "sum" = .ok r
      ∧ (∀ t, t ∈ r.timestamps ↔ (t ∈ combA.timestamps ∨ t ∈ combB.timestamps))
      ∧ r.timestamps.length
          = (combA.timestamps.toFinset ∪ combB.timestamps.toFinset).card
      ∧ (∀ ts, ts ∈ combA.timestamps → ts ∉ combB.timestamps →
          ∃ v, (ts, v) ∈ combA.values ∧ r.get_by_ts ts = v)
      ∧ (∀ ts, ts ∈ combB.timestamps → ts ∉ combA.timestamps →
          ∃ v, (ts, v) ∈ combB.values ∧ r.get_by_ts ts = v)
      ∧ r.unit = (if combA.unit ≠ none ∧ combA.unit ≠ some "" then combA.unit
          else combB.unit) :=
  ⟨Or.inl rfl, combine_union_copy_unit combA combB "sum" (Or.inl rfl)⟩

/-- C10.  For every two series and every mode on which `combine` succeeds,
the returned series is sorted strictly ascending by timestamp — in
particular sorted ascending and free of duplicate timestamps — although
the spec states its ordering invariant only for resample operations. -/
theorem combine_result_sorted_nodup (A B : TimeSeries) (mode : String)
    (r : TimeSeries) (h : A.combine B mode = .ok r) :
    r.timestamps.Sorted (· < ·) ∧ r.timestamps.Nodup := by
  have hnd := combine_ok_timestamps_nodup h
  have hle : r.timestamps.Sorted (· ≤ ·) := by
    rw [combine_ok_timestamps h]
    exact List.sorted_insertionSort _ _
  exact ⟨hle.lt_of_le hnd, hnd⟩

/-- C10 witness: the combined series of two concrete series is strictly
sorted and duplicate-free. -/
theorem combine_result_sorted_nodup_witness :
    TimeSeries.combine combA combB "sum" = .ok combABResult
    ∧ combABResult.timestamps.Sorted (· < ·) ∧ combABResult.timestamps.Nodup := by
  have hok : TimeSeries.combine combA combB "sum" = .ok combABResult := rfl
  exact ⟨hok, combine_result_sorted_nodup combA combB "sum" combABResult hok⟩

/-! ## Lemmas about `group_by_minutes` -/

theorem groupFold_keys_nodup (m : Nat) (vals : List (Datetime × PyVal)) :
    ∀ acc : List (Datetime × ℚ) × List (Datetime × ℤ),
      (acc.1.map Prod.fst).Nodup →
      ((vals.foldl (groupStep m) acc).1.map Prod.fst).Nodup := by
  induction vals with
  | nil => exact fun acc h => h
  | cons p rest ih => exact fun acc h => ih _ (dictSet_keys_nodup h _ _)

theorem groupFold_keys_sub (m : Nat) (vals : List (Datetime × PyVal)) :
    ∀ acc k, k ∈ (vals.foldl (groupStep m) acc).1.map Prod.fst →
      k ∈ acc.1.map Prod.fst ∨ ∃ u ∈ vals, k = bucketTs m u.1 := by
  induction vals with
  | nil => exact fun acc k h => Or.inl h
  | cons p rest ih =>
    intro acc k h
    rcases ih _ k h with h1 | ⟨u, hu, he⟩
    · rcases (dictSet_mem_keys_iff _ _ _ _).1 h1 with h2 | h2
      · exact Or.inl h2
      · exact Or.inr ⟨p, List.mem_cons_self _ _, h2⟩
    · exact Or.inr ⟨u, List.mem_cons_of_mem _ hu, he⟩

/-- C6.  For every series, bucket size `m > 0` and recognized mode,
`group_by_minutes` succeeds and the resulting stored timestamps are
pairwise distinct, sorted strictly ascending, and each is an input
timestamp truncated to its bucket boundary: minute
`(original_minute / m) * m` (integer division) with seconds and
microseconds zero. -/
theorem map_fst_keyed {β : Type} (ks : List Datetime) (f : Datetime → β) :
    (ks.map (fun k => (k, f k))).map Prod.fst = ks := by
  rw [List.map_map]
  have hcomp : (Prod.fst ∘ fun k => (k, f k)) = id := rfl
  rw [hcomp, List.map_id]

theorem group_by_minutes_bucket_invariant (s : TimeSeries) (m : ℤ) (mode : String)
    (hm : 0 < m) (hmode : mode = "sum" ∨ mode = "avg") :
    ∃ r, s.group_by_minutes m mode = .ok r
    ∧ r.timestamps.Sorted (· < ·)
    ∧ r.timestamps.Nodup
    ∧ ∀ t ∈ r.timestamps, t.second = 0 ∧ t.microsecond = 0
        ∧ ∃ u ∈ s.timestamps, t = bucketTs m.toNat u
          ∧ t.minute = u.minute / m.toNat * m.toNat := by
  set sums := (s.values.foldl (groupStep m.toNat) ([], [])).1 with hsums
  set counts := (s.values.foldl (groupStep m.toNat) ([], [])).2 with hcounts
  set keys := (sums.map Prod.fst).insertionSort (· ≤ ·) with hkeys
  have hok : s.group_by_minutes m mode
      = .ok ⟨keys.map (fun k => (k, aggValue mode sums counts k)), s.unit⟩ := by
    unfold TimeSeries.group_by_minutes
    rw [if_neg (not_le.2 hm), if_pos hmode]
  have hnodup : keys.Nodup := by
    rw [hkeys]
    refine ((List.perm_insertionSort _ _).nodup_iff).2 ?_
    rw [hsums]
    exact groupFold_keys_nodup m.toNat s.values ([], []) List.nodup_nil
  have hts : (⟨keys.map (fun k => (k, aggValue mode sums counts k)),
      s.unit⟩ : TimeSeries).timestamps = keys :=
    map_fst_keyed keys _
  refine ⟨_, hok, ?_, ?_, ?_⟩
  · rw [hts]
    rw [hkeys] at hnodup ⊢
    exact (List.sorted_insertionSort _ _).lt_of_le hnodup
  · rw [hts]
    exact hnodup
  · rw [hts]
    intro t ht
    rw [hkeys] at ht
    have hmem := ((List.perm_insertionSort _ _).mem_iff).1 ht
    rw [hsums] at hmem
    rcases groupFold_keys_sub m.toNat s.values ([], []) t hmem with h1 | ⟨u, hu, he⟩
    · simp at h1
    · subst he
      exact ⟨rfl, rfl, u.1, List.mem_map.2 ⟨u, hu, rfl⟩, rfl, rfl⟩

/-- C6 witness: a concrete unsorted series grouped into 5-minute buckets. -/
theorem group_by_minutes_bucket_invariant_witness :
    (0 : ℤ) < 5 ∧ (("sum" : String) = "sum" ∨ ("sum" : String) = "avg")
    ∧ ∃ r, groupExample.group_by_minutes 5 "sum" = .ok r
      ∧ r.timestamps.Sorted (· < ·)
      ∧ r.timestamps.Nodup
      ∧ ∀ t ∈ r.timestamps, t.second = 0 ∧ t.microsecond = 0
          ∧ ∃ u ∈ groupExample.timestamps, t = bucketTs (5 : ℤ).toNat u
            ∧ t.minute = u.minute / (5 : ℤ).toNat * (5 : ℤ).toNat :=
  ⟨by norm_num, Or.inl rfl,
   group_by_minutes_bucket_invariant groupExample 5 "sum" (by norm_num) (Or.inl rfl)⟩

/-- C9.  `group_by_minutes` raises (a ValueError, the spec's
ValidationError) exactly when `bucket_minutes <= 0` or the mode is not
`"sum"`/`"avg"`; both checks precede the accumulation loop and the final
in-place replacement of the stored values, so on error no new values are
produced and the series is left as it was. -/
theorem group_by_minutes_validation (s : TimeSeries) (m : ℤ) (mode : String) :
    (∃ e, s.group_by_minutes m mode = .error e)
      ↔ (m ≤ 0 ∨ (mode ≠ "sum" ∧ mode ≠ "avg")) := by
  unfold TimeSeries.group_by_minutes
  by_cases h1 : m ≤ 0
  · simp [h1]
  · rw [if_neg h1]
    by_cases h2 : mode = "sum" ∨ mode = "avg"
    · rw [if_pos h2]
      constructor
      · rintro ⟨e, he⟩
        exact Except.noConfusion he
      · rintro (hc | ⟨ha, hb⟩)
        · exact absurd hc h1
        · rcases h2 with h | h
          · exact absurd h ha
          · exact absurd h hb
    · rw [if_neg h2]
      constructor
      · intro _
        exact Or.inr (not_or.1 h2)
      · intro _
        exact ⟨_, rfl⟩

/-! ## Lemmas about the latency bundle decoder -/

theorem latencyStep_aligned {st : LatencyState} (h : st.aligned) (p : DistPoint) :
    (latencyStep st p).aligned := by
  obtain ⟨h1, h2⟩ := h
  unfold LatencyState.aligned latencyStep
  simp only [TimeSeries.add, List.map_append, List.map_cons, List.map_nil]
  exact ⟨by rw [h1], by rw [h2]⟩

theorem foldl_latencyStep_aligned (ps : List DistPoint) :
    ∀ st : LatencyState, st.aligned → (ps.foldl latencyStep st).aligned := by
  induction ps with
  | nil => exact fun st h => h
  | cons p rest ih => exact fun st h => ih _ (latencyStep_aligned h p)

theorem processLatencySeries_aligned {st : LatencyState} (h : st.aligned)
    (ps : List DistPoint) : (processLatencySeries st ps).aligned := by
  unfold processLatencySeries
  exact foldl_latencyStep_aligned _ _ h

theorem bundleFold_aligned (seriesList : List (List DistPoint)) :
    (seriesList.foldl processLatencySeries emptyLatencyState).aligned := by
  have hgen : ∀ (sl : List (List DistPoint)) (st : LatencyState), st.aligned →
      (sl.foldl processLatencySeries st).aligned := by
    intro sl
    induction sl with
    | nil => exact fun st h => h
    | cons ps rest ih => exact fun st h => ih _ (processLatencySeries_aligned h ps)
  exact hgen seriesList emptyLatencyState ⟨rfl, rfl⟩

theorem sort_timestamps (s : TimeSeries) :
    s.sort.timestamps = s.timestamps.insertionSort (· ≤ ·) := by
  unfold TimeSeries.sort TimeSeries.timestamps
  exact List.map_insertionSort _ _ Prod.fst _ (fun a _ b _ => Iff.rfl)

/-- C7.  The three sibling series of a decoded latency bundle
(`perquery_count`, `perquery_latency_mean`, `perquery_latency_pr75`) have
identical timestamp sequences and equal lengths after decoding, so pairing
`count[i]` with `mean[i]` and `pr75[i]` by index is well-defined. -/
theorem latency_bundle_siblings_aligned (seriesList : List (List DistPoint)) :
    (load_perquery_latency_bundle seriesList).1.timestamps
        = (load_perquery_latency_bundle seriesList).2.1.timestamps
    ∧ (load_perquery_latency_bundle seriesList).2.1.timestamps
        = (load_perquery_latency_bundle seriesList).2.2.timestamps
    ∧ (load_perquery_latency_bundle seriesList).1.values.length
        = (load_perquery_latency_bundle seriesList).2.1.values.length
    ∧ (load_perquery_latency_bundle seriesList).2.1.values.length
        = (load_perquery_latency_bundle seriesList).2.2.values.length := by
  obtain ⟨h1, h2⟩ := bundleFold_aligned seriesList
  unfold load_perquery_latency_bundle
  have e1 : ((seriesList.foldl processLatencySeries
        emptyLatencyState).perquery_count.sort).timestamps
      = ((seriesList.foldl processLatencySeries
        emptyLatencyState).perquery_latency_mean.sort).timestamps := by
    rw [sort_timestamps, sort_timestamps]
    unfold TimeSeries.timestamps
    rw [h1]
  have e2 : ((seriesList.foldl processLatencySeries
        emptyLatencyState).perquery_latency_mean.sort).timestamps
      = ((seriesList.foldl processLatencySeries
        emptyLatencyState).perquery_latency_pr75.sort).timestamps := by
    rw [sort_timestamps, sort_timestamps]
    unfold TimeSeries.timestamps
    rw [h2]
  have hlen : ∀ s : TimeSeries, s.values.length = s.timestamps.length :=
    fun s => (List.length_map _ _).symm
  refine ⟨e1, e2, ?_, ?_⟩
  · rw [hlen, hlen, e1]
  · rw [hlen, hlen, e2]

end PsqlCli
